import Mathlib

/-!
Verification of the concept2 data-analyzer core against its specification.

The development shallowly embeds the two analysis operations of
`src/data_analyzer.py` (`get_summary_stats`, `get_split_analysis`) and the
telemetry generator of `src/pm5_simulator.py` (`get_monitor_data`).
Python floats are modelled by exact rationals (`ℚ`); the single square root
taken by `statistics.stdev` is modelled by `Real.sqrt`.
-/

namespace Concept2

/-- Python `int(x)` truncates toward zero: floor for nonnegative input,
ceiling for negative input. -/
def pyInt (q : ℚ) : ℤ := if q < 0 then ⌈q⌉ else ⌊q⌋

/-- Round a rational to the nearest integer, ties to the even integer,
as Python's builtin `round` does. -/
def roundHalfEven (q : ℚ) : ℤ :=
  if q - ⌊q⌋ < 1/2 then ⌊q⌋
  else if 1/2 < q - ⌊q⌋ then ⌊q⌋ + 1
  else if (2 : ℤ) ∣ ⌊q⌋ then ⌊q⌋ else ⌊q⌋ + 1

/-- Python `round(x, d)`: round to `d` decimal places, ties to even. -/
def pyRound (q : ℚ) (d : ℕ) : ℚ := (roundHalfEven (q * 10 ^ d) : ℚ) / 10 ^ d

/-- One telemetry sample: the dict produced by the simulator / consumed by
`DataAnalyzer`. All numeric entries are modelled as rationals. -/
structure Sample where
  time : ℚ
  distance : ℚ
  stroke_rate : ℚ
  pace : ℚ
  power : ℚ
  calories : ℚ
  heart_rate : ℚ
  stroke_count : ℚ
  stroke_length : ℚ
deriving DecidableEq, Inhabited, Repr

/-- `[d[k] for d in data if d.get(k, 0) > 0]`: the positive-value filter
applied to one field of every sample. -/
def posVals (f : Sample → ℚ) (data : List Sample) : List ℚ :=
  (data.filter (fun d => 0 < f d)).map f

/-- `statistics.mean`. -/
def mean (xs : List ℚ) : ℚ := xs.sum / xs.length

/-- Python `max` over a nonempty list (0 on `[]`, which the callers guard). -/
def listMax : List ℚ → ℚ
  | [] => 0
  | [x] => x
  | x :: y :: rest => max x (listMax (y :: rest))

/-- Python `min` over a nonempty list (0 on `[]`, which the callers guard). -/
def listMin : List ℚ → ℚ
  | [] => 0
  | [x] => x
  | x :: y :: rest => min x (listMin (y :: rest))

/-- The square of `statistics.stdev`: sample variance with Bessel's
correction, `Σ (x − μ)² / (n − 1)`. -/
def sampleVariance (xs : List ℚ) : ℚ :=
  (xs.map (fun x => (x - mean xs) ^ 2)).sum / (xs.length - 1 : ℕ)

/-- The record returned by `get_summary_stats` on nonempty data.
`stroke_length_consistency` involves `statistics.stdev`'s square root and so
lives in `ℝ`; every other entry is exact. -/
structure SummaryStats where
  total_time : ℚ
  total_distance : ℚ
  total_strokes : ℚ
  avg_stroke_length : ℚ
  best_stroke_length : ℚ
  worst_stroke_length : ℚ
  stroke_length_consistency : ℝ
  avg_stroke_rate : ℚ
  avg_pace : ℚ
  avg_power : ℚ
  avg_calories_per_hour : ℚ

/-- The body of `DataAnalyzer.get_summary_stats` past its emptiness guard. -/
noncomputable def statsOf (data : List Sample) : SummaryStats :=
  let stroke_lengths := posVals Sample.stroke_length data
  let stroke_rates := posVals Sample.stroke_rate data
  let paces := posVals Sample.pace data
  let powers := posVals Sample.power data
  let final_data := data.getLastD default
  let total_time := final_data.time
  let avg_stroke_length := if stroke_lengths = [] then 0 else mean stroke_lengths
  { total_time := total_time
    total_distance := final_data.distance
    total_strokes := final_data.stroke_count
    avg_stroke_length := avg_stroke_length
    best_stroke_length := if stroke_lengths = [] then 0 else listMax stroke_lengths
    worst_stroke_length := if stroke_lengths = [] then 0 else listMin stroke_lengths
    stroke_length_consistency :=
      if 1 < stroke_lengths.length then
        (1 - Real.sqrt ((sampleVariance stroke_lengths : ℚ) : ℝ) /
          ((avg_stroke_length : ℚ) : ℝ)) * 100
      else 100
    avg_stroke_rate := if stroke_rates = [] then 0 else mean stroke_rates
    avg_pace := if paces = [] then 0 else mean paces
    avg_power := if powers = [] then 0 else mean powers
    avg_calories_per_hour :=
      if 0 < total_time then final_data.calories / (total_time / 3600) else 0 }

/-- `DataAnalyzer.get_summary_stats`: `{}` on empty data (modelled as `none`),
otherwise the summary record. -/
noncomputable def get_summary_stats (data : List Sample) : Option SummaryStats :=
  if data = [] then none else some (statsOf data)

/-- One element of the list returned by `get_split_analysis`. -/
structure SplitRecord where
  split_number : ℕ
  distance : ℚ
  avg_stroke_length : ℚ
  avg_pace : ℚ
  avg_power : ℚ
  time : ℚ
deriving DecidableEq, Repr

/-- The `split_info` dict built from one slice `split_data` of the samples. -/
def splitInfo (num : ℕ) (split_distance : ℚ) (split_data : List Sample) :
    SplitRecord :=
  let split_stroke_lengths := posVals Sample.stroke_length split_data
  let split_paces := posVals Sample.pace split_data
  let split_powers := posVals Sample.power split_data
  { split_number := num
    distance := split_distance
    avg_stroke_length :=
      if split_stroke_lengths = [] then 0 else mean split_stroke_lengths
    avg_pace := if split_paces = [] then 0 else mean split_paces
    avg_power := if split_powers = [] then 0 else mean split_powers
    time := ((split_data.map Sample.time).getLastD 0) -
      ((split_data.map Sample.time).headD 0) }

/-- The `for i, point in enumerate(self.data)` loop of `get_split_analysis`,
carrying the loop state `(start_idx, start_distance)` and the accumulated
split list. -/
def splitLoopAux (data : List Sample) (split_distance : ℚ) :
    List (ℕ × Sample) → ℕ → ℚ → List SplitRecord → List SplitRecord
  | [], _, _, splits => splits
  | (i, point) :: rest, start_idx, start_distance, splits =>
    if start_distance + split_distance ≤ point.distance then
      let split_data := (data.drop start_idx).take (i + 1 - start_idx)
      let splits' :=
        if split_data = [] then splits
        else splits ++ [splitInfo (splits.length + 1) split_distance split_data]
      splitLoopAux data split_distance rest i point.distance splits'
    else
      splitLoopAux data split_distance rest start_idx start_distance splits

/-- `DataAnalyzer.get_split_analysis`: walk the samples with
`start_idx = 0`, `start_distance = 0`. -/
def get_split_analysis (data : List Sample) (split_distance : ℚ) :
    List SplitRecord :=
  splitLoopAux data split_distance data.enum 0 0 []

/-- Instrumented twin of the `get_split_analysis` loop that records, for each
closed split, the pair `(start_idx, i)` of indices bounding its inclusive
slice instead of the derived statistics. -/
def boundariesAux (split_distance : ℚ) :
    List (ℕ × Sample) → ℕ → ℚ → List (ℕ × ℕ)
  | [], _, _ => []
  | (i, point) :: rest, start_idx, start_distance =>
    if start_distance + split_distance ≤ point.distance then
      (start_idx, i) :: boundariesAux split_distance rest i point.distance
    else
      boundariesAux split_distance rest start_idx start_distance

/-- The index pairs of the inclusive slices underlying
`get_split_analysis data split_distance`. -/
def splitBoundaries (data : List Sample) (split_distance : ℚ) :
    List (ℕ × ℕ) :=
  boundariesAux split_distance data.enum 0 0

/-- Rebuild the split records from a list of slice-boundary index pairs,
numbering them consecutively from `k + 1`. -/
def recordsOf (data : List Sample) (split_distance : ℚ) :
    ℕ → List (ℕ × ℕ) → List SplitRecord
  | _, [] => []
  | k, (a, b) :: rest =>
    splitInfo (k + 1) split_distance ((data.drop a).take (b + 1 - a)) ::
      recordsOf data split_distance (k + 1) rest

/-- Modelled from the spec's segmentation wording: from the current position,
skip every sample whose distance is below `start_distance + split_distance`;
the first sample at or above that threshold closes a split `(start_idx, i)`,
and scanning resumes after it with `start_idx = i` and `start_distance` the
distance value at `i`. `fuel` only bounds the recursion depth; since every
round consumes at least one sample, any `fuel ≥ l.length` gives the same
result. -/
def specBoundsAux (split_distance : ℚ) :
    ℕ → ℕ → ℚ → List (ℕ × Sample) → List (ℕ × ℕ)
  | 0, _, _, _ => []
  | fuel + 1, start_idx, start_distance, l =>
    match l.dropWhile
      (fun p => decide (p.2.distance < start_distance + split_distance)) with
    | [] => []
    | (i, s) :: rest =>
      (start_idx, i) :: specBoundsAux split_distance fuel i s.distance rest

/-- The spec-worded segmentation of `specBoundsAux`, run with enough fuel. -/
def specBounds (split_distance : ℚ) (start_idx : ℕ) (start_distance : ℚ)
    (l : List (ℕ × Sample)) : List (ℕ × ℕ) :=
  specBoundsAux split_distance l.length start_idx start_distance l

/-- Claim C1 as stated: the segmentation loop with `start_distance`
initialized to the distance value of the first sample (and `start_idx` to its
index, 0). -/
def specSegmentFirstInit (data : List Sample) (split_distance : ℚ) :
    List SplitRecord :=
  match data with
  | [] => []
  | first :: _ => splitLoopAux data split_distance data.enum 0 first.distance []

/-- `PM5Simulator.target_spm`. -/
def targetSPM : ℚ := 35

/-- `PM5Simulator.target_pace`. -/
def targetPace : ℚ := 100

/-- The mutable fields of a `PM5Simulator` instance. -/
structure SimState where
  connected : Bool
  workout_time : ℚ
  total_distance : ℚ
  stroke_count : ℕ
  is_rowing : Bool
  last_stroke_time : ℚ
deriving DecidableEq, Repr

/-- `PM5Simulator.__init__`. -/
def initSimState : SimState :=
  { connected := false, workout_time := 0, total_distance := 0,
    stroke_count := 0, is_rowing := false, last_stroke_time := 0 }

/-- The environment of one `get_monitor_data` call: the wall clock reading
`time.time()` and the values drawn from `random`. The draws' distributions
are `random.random()` for `rActive`, `uniform(-0.1, 0.15)` for
`strokeJitter`, `uniform(-3, 5)` for `spmJitter`, `uniform(-5, 5)` for
`paceJitter` and `randint(-15, 15)` for `hrJitter`. -/
structure SimInput where
  now : ℚ
  rActive : ℚ
  strokeJitter : ℚ
  spmJitter : ℚ
  paceJitter : ℚ
  hrJitter : ℤ
deriving DecidableEq, Repr

/-- The value `self.last_stroke_time` holds after the start-of-rowing
transition at the top of an active tick (`if not self.is_rowing: ...
self.last_stroke_time = current_time`). -/
def strokeResetTime (s : SimState) (inp : SimInput) : ℚ :=
  if !s.is_rowing then inp.now else s.last_stroke_time

/-- The state mutations of an active tick: `workout_time += 0.5`, and, when
`current_time - last_stroke_time >= 60 / target_spm`, one more stroke with a
distance increment `1.4 + uniform(-0.1, 0.15)`. -/
def activeState (s : SimState) (inp : SimInput) : SimState :=
  if 60 / targetSPM ≤ inp.now - strokeResetTime s inp then
    { connected := s.connected
      workout_time := s.workout_time + 1/2
      total_distance := s.total_distance + (7/5 + inp.strokeJitter)
      stroke_count := s.stroke_count + 1
      is_rowing := true
      last_stroke_time := inp.now }
  else
    { connected := s.connected
      workout_time := s.workout_time + 1/2
      total_distance := s.total_distance
      stroke_count := s.stroke_count
      is_rowing := true
      last_stroke_time := strokeResetTime s inp }

/-- `power = 2.8 / pace_factor if pace_factor > 0 else 0` with
`pace_factor = (current_pace / 500) ** 3`. -/
def activePower (inp : SimInput) : ℚ :=
  if 0 < ((targetPace + inp.paceJitter) / 500) ^ 3 then
    (14/5) / ((targetPace + inp.paceJitter) / 500) ^ 3
  else 0

/-- The return dict of `get_monitor_data`, built from the (possibly updated)
state and the tick's instantaneous values. `stroke_length` is recomputed as
`total_distance / stroke_count` (0 when no strokes). -/
def sampleOf (st : SimState)
    (stroke_rate pace power calories heart_rate : ℚ) : Sample :=
  { time := pyRound st.workout_time 1
    distance := ((pyInt st.total_distance : ℤ) : ℚ)
    stroke_rate := pyRound stroke_rate 1
    pace := pyRound pace 1
    power := pyRound power 1
    calories := pyRound calories 1
    heart_rate := heart_rate
    stroke_count := (st.stroke_count : ℚ)
    stroke_length :=
      pyRound
        (if 0 < st.stroke_count then st.total_distance / (st.stroke_count : ℚ)
         else 0) 2 }

/-- `PM5Simulator.get_monitor_data`, returning the produced sample (`none`
when not connected, as the Python `None`) together with the updated state.
An active tick (`random.random() < 0.8`) updates the state and reports the
jittered instantaneous values; an idle tick leaves the state untouched and
reports the defaults `stroke_rate = pace = power = calories = 0`,
`heart_rate = 140`. -/
def get_monitor_data (s : SimState) (inp : SimInput) :
    Option Sample × SimState :=
  if !s.connected then (none, s)
  else if inp.rActive < 4/5 then
    (some (sampleOf (activeState s inp) (targetSPM + inp.spmJitter)
      (targetPace + inp.paceJitter) (activePower inp)
      ((activeState s inp).workout_time / 3600 * (activePower inp * 4))
      (175 + (inp.hrJitter : ℚ))),
     activeState s inp)
  else
    (some (sampleOf s 0 0 0 0 140), s)

/-- A sample with a given time and distance and all other fields 0. -/
def sampleAt (t d : ℚ) : Sample :=
  { time := t, distance := d, stroke_rate := 0, pace := 0, power := 0,
    calories := 0, heart_rate := 0, stroke_count := 0, stroke_length := 0 }

/-- A sample with a given stroke length and all other fields 0. -/
def slSample (x : ℚ) : Sample :=
  { time := 0, distance := 0, stroke_rate := 0, pace := 0, power := 0,
    calories := 0, heart_rate := 0, stroke_count := 0, stroke_length := x }

/-- The sum of the elapsed times of a list of split records. -/
def sumTimes (l : List SplitRecord) : ℚ := (l.map SplitRecord.time).sum

/-- A single sample whose distance already exceeds the default split
distance: it separates the loop's literal `start_distance = 0` from an
initialization to the first sample's distance. -/
def c1CexData : List Sample := [sampleAt 0 600]

/-- A connected simulator in its initial state. -/
def simConnState : SimState :=
  { connected := true, workout_time := 0, total_distance := 0,
    stroke_count := 0, is_rowing := false, last_stroke_time := 0 }

/-- An "active" call environment: `random.random()` drew 0, all jitters 0,
wall clock 0. -/
def simActInput : SimInput :=
  { now := 0, rActive := 0, strokeJitter := 0, spmJitter := 0,
    paceJitter := 0, hrJitter := 0 }

/-- An "idle" call environment: `random.random()` drew 0.9. -/
def simIdleInput : SimInput :=
  { now := 1, rActive := 9/10, strokeJitter := 0, spmJitter := 0,
    paceJitter := 0, hrJitter := 0 }

/-- The sample produced by the active call `get_monitor_data simConnState
simActInput`. -/
def simActOut : Sample :=
  { time := 1/2, distance := 0, stroke_rate := 35, pace := 100, power := 350,
    calories := 1/5, heart_rate := 175, stroke_count := 0, stroke_length := 0 }

/-- The simulator state after that active call. -/
def simActState : SimState :=
  { connected := true, workout_time := 1/2, total_distance := 0,
    stroke_count := 0, is_rowing := true, last_stroke_time := 0 }

/-- The sample produced by the subsequent idle call. -/
def simIdleOut : Sample :=
  { time := 1/2, distance := 0, stroke_rate := 0, pace := 0, power := 0,
    calories := 0, heart_rate := 140, stroke_count := 0, stroke_length := 0 }

/-- A one-sample workout with a positive stroke length. -/
def oneSampleData : List Sample := [slSample 2]

/-- Two samples with positive stroke lengths. -/
def twoSampleData : List Sample := [slSample 1, slSample 2]

/-- Four positive stroke-length samples `[1, 1, 1, 9]` whose sample standard
deviation (4) exceeds their mean (3). -/
def negConsistencyData : List Sample :=
  [slSample 1, slSample 1, slSample 1, slSample 9]

/-- Three samples with nonnegative, nondecreasing times and distances
crossing one 500 m boundary. -/
def c2WitData : List Sample := [sampleAt 0 0, sampleAt 10 300, sampleAt 20 600]

/-! ## Numeric helper lemmas -/

theorem pyInt_mono {a b : ℚ} (h : a ≤ b) : pyInt a ≤ pyInt b := by
  unfold pyInt
  split_ifs with h1 h2 h3
  · exact Int.ceil_mono h
  · have h4 : ⌈a⌉ ≤ (0 : ℤ) := Int.ceil_le.mpr (by exact_mod_cast le_of_lt h1)
    have h5 : (0 : ℤ) ≤ ⌊b⌋ := Int.le_floor.mpr (by exact_mod_cast not_lt.mp h2)
    omega
  · exact absurd (lt_of_le_of_lt h h3) (not_lt.mpr (not_lt.mp h1))
  · exact Int.floor_mono h

theorem roundHalfEven_nonneg {q : ℚ} (h : 0 ≤ q) : 0 ≤ roundHalfEven q := by
  have hf : (0 : ℤ) ≤ ⌊q⌋ := Int.le_floor.mpr (by exact_mod_cast h)
  unfold roundHalfEven
  split_ifs <;> omega

theorem pyRound_nonneg {q : ℚ} {d : ℕ} (h : 0 ≤ q) : 0 ≤ pyRound q d := by
  unfold pyRound
  apply div_nonneg _ (by positivity)
  exact_mod_cast roundHalfEven_nonneg (by positivity)

/-! ## Statistics helper lemmas -/

theorem posVals_mem_pos {f : Sample → ℚ} {data : List Sample} :
    ∀ x ∈ posVals f data, 0 < x := by
  intro x hx
  obtain ⟨d, hd, rfl⟩ := List.mem_map.mp hx
  simpa using (List.mem_filter.mp hd).2

theorem mean_pos {xs : List ℚ} (hpos : ∀ x ∈ xs, 0 < x) (hne : xs ≠ []) :
    0 < mean xs := by
  unfold mean
  exact div_pos (List.sum_pos xs hpos hne)
    (by exact_mod_cast List.length_pos.mpr hne)

theorem le_listMax {xs : List ℚ} : ∀ x ∈ xs, x ≤ listMax xs := by
  induction xs with
  | nil => simp
  | cons a t ih =>
    intro x hx
    cases t with
    | nil =>
      rw [List.mem_singleton] at hx
      subst hx
      exact le_of_eq rfl
    | cons b u =>
      rw [show listMax (a :: b :: u) = max a (listMax (b :: u)) from rfl]
      rcases List.mem_cons.mp hx with rfl | hx2
      · exact le_max_left _ _
      · exact le_trans (ih x hx2) (le_max_right _ _)

theorem listMin_le {xs : List ℚ} : ∀ x ∈ xs, listMin xs ≤ x := by
  induction xs with
  | nil => simp
  | cons a t ih =>
    intro x hx
    cases t with
    | nil =>
      rw [List.mem_singleton] at hx
      subst hx
      exact le_of_eq rfl
    | cons b u =>
      rw [show listMin (a :: b :: u) = min a (listMin (b :: u)) from rfl]
      rcases List.mem_cons.mp hx with rfl | hx2
      · exact min_le_left _ _
      · exact le_trans (min_le_right _ _) (ih x hx2)

theorem sum_le_length_mul {xs : List ℚ} {b : ℚ} (h : ∀ x ∈ xs, x ≤ b) :
    xs.sum ≤ (xs.length : ℚ) * b := by
  induction xs with
  | nil => simp
  | cons a t ih =>
    have ha := h a (List.mem_cons_self a t)
    have ht := ih fun x hx => h x (List.mem_cons_of_mem a hx)
    simp only [List.sum_cons, List.length_cons]
    push_cast
    linarith

theorem length_mul_le_sum {xs : List ℚ} {b : ℚ} (h : ∀ x ∈ xs, b ≤ x) :
    (xs.length : ℚ) * b ≤ xs.sum := by
  induction xs with
  | nil => simp
  | cons a t ih =>
    have ha := h a (List.mem_cons_self a t)
    have ht := ih fun x hx => h x (List.mem_cons_of_mem a hx)
    simp only [List.sum_cons, List.length_cons]
    push_cast
    linarith

theorem mean_le_listMax {xs : List ℚ} (hne : xs ≠ []) :
    mean xs ≤ listMax xs := by
  have hlen : (0 : ℚ) < xs.length := by
    exact_mod_cast List.length_pos.mpr hne
  unfold mean
  rw [div_le_iff hlen, mul_comm]
  exact sum_le_length_mul le_listMax

theorem listMin_le_mean {xs : List ℚ} (hne : xs ≠ []) :
    listMin xs ≤ mean xs := by
  have hlen : (0 : ℚ) < xs.length := by
    exact_mod_cast List.length_pos.mpr hne
  unfold mean
  rw [le_div_iff hlen, mul_comm]
  exact length_mul_le_sum listMin_le

theorem get_summary_stats_eq {data : List Sample} {stats : SummaryStats}
    (h : get_summary_stats data = some stats) : stats = statsOf data := by
  by_cases hd : data = []
  · rw [hd] at h
    simp [get_summary_stats] at h
  · unfold get_summary_stats at h
    rw [if_neg hd] at h
    exact (Option.some.inj h).symm

theorem get_summary_stats_cons (x : Sample) (t : List Sample) :
    get_summary_stats (x :: t) = some (statsOf (x :: t)) := by
  simp [get_summary_stats]

/-! ## Claim theorems -/

/-- C10: when the simulator is not connected, `get_monitor_data` returns the
no-data sentinel `None` and leaves the state unchanged. -/
theorem claim_C10 (s : SimState) (inp : SimInput) (h : s.connected = false) :
    get_monitor_data s inp = (none, s) := by
  simp [get_monitor_data, h]

/-- Witness for C10 at the freshly initialized (disconnected) simulator. -/
theorem claim_C10_witness :
    get_monitor_data initSimState simActInput = (none, initSimState) :=
  claim_C10 initSimState simActInput rfl

/-- C9: `summarize` on the empty sequence returns the empty sentinel and
`segment` on the empty sequence returns an empty split list, for every
positive split distance; both are total functions (no exception). -/
theorem claim_C9 :
    get_summary_stats ([] : List Sample) = none ∧
    ∀ split_distance : ℚ, 0 < split_distance →
      get_split_analysis [] split_distance = [] := by
  exact ⟨by simp [get_summary_stats], fun _ _ => rfl⟩

/-- Witness for C9 at the default split distance 500. -/
theorem claim_C9_witness :
    get_summary_stats ([] : List Sample) = none ∧
    get_split_analysis [] 500 = [] :=
  ⟨claim_C9.1, claim_C9.2 500 (by norm_num)⟩

/-- Counterexample to C1 as stated: on a single sample at distance 600 with
split distance 500, the code (whose `start_distance` starts at the literal 0)
emits a split, while the claimed algorithm (whose `start_distance` starts at
the first sample's distance, 600) emits none. -/
theorem claim_C1_counterexample :
    get_split_analysis c1CexData 500 ≠ specSegmentFirstInit c1CexData 500 := by
  have h1 : get_split_analysis c1CexData 500 =
      [splitInfo 1 500 [sampleAt 0 600]] := by
    norm_num [get_split_analysis, c1CexData, splitLoopAux, sampleAt,
      List.enum, List.enumFrom]
  have h2 : specSegmentFirstInit c1CexData 500 = [] := by
    norm_num [specSegmentFirstInit, c1CexData, splitLoopAux, sampleAt,
      List.enum, List.enumFrom]
  rw [h1, h2]
  simp

/-- C6: whenever the `σ/μ` ratio of the consistency computation is evaluated
(filtered stroke-length list has ≥ 2 elements), its denominator — the mean of
the filtered list — is strictly positive, so `get_summary_stats` can never
divide by zero there; the `μ = 0` case is unreachable. -/
theorem claim_C6 (data : List Sample)
    (h : 1 < (posVals Sample.stroke_length data).length) :
    0 < mean (posVals Sample.stroke_length data) ∧
    ((mean (posVals Sample.stroke_length data) : ℚ) : ℝ) ≠ 0 := by
  have hne : posVals Sample.stroke_length data ≠ [] := by
    intro hnil
    rw [hnil] at h
    simp at h
  have hpos := mean_pos posVals_mem_pos hne
  exact ⟨hpos, by exact_mod_cast ne_of_gt hpos⟩

/-- Witness for C6 on two positive stroke-length samples. -/
theorem claim_C6_witness :
    0 < mean (posVals Sample.stroke_length twoSampleData) ∧
    ((mean (posVals Sample.stroke_length twoSampleData) : ℚ) : ℝ) ≠ 0 :=
  claim_C6 twoSampleData
    (by norm_num [posVals, twoSampleData, slSample, List.filter])

/-! ## Simulator step lemmas -/

theorem activeState_stroke_count_mono (s : SimState) (inp : SimInput) :
    s.stroke_count ≤ (activeState s inp).stroke_count := by
  unfold activeState
  split_ifs <;> simp

theorem activeState_total_distance_mono (s : SimState) (inp : SimInput)
    (hj : -1/10 ≤ inp.strokeJitter) :
    s.total_distance ≤ (activeState s inp).total_distance := by
  unfold activeState
  split_ifs <;> simp <;> linarith

theorem activePower_nonneg (inp : SimInput) : 0 ≤ activePower inp := by
  unfold activePower
  split_ifs with h
  · positivity
  · exact le_refl 0

theorem step_snd (s : SimState) (inp : SimInput) :
    (get_monitor_data s inp).2 = s ∨
    (get_monitor_data s inp).2 = activeState s inp := by
  unfold get_monitor_data
  split_ifs <;> simp

theorem step_stroke_count_mono (s : SimState) (inp : SimInput) :
    s.stroke_count ≤ ((get_monitor_data s inp).2).stroke_count := by
  rcases step_snd s inp with h | h
  · rw [h]
  · rw [h]
    exact activeState_stroke_count_mono s inp

theorem step_total_distance_mono (s : SimState) (inp : SimInput)
    (hj : -1/10 ≤ inp.strokeJitter) :
    s.total_distance ≤ ((get_monitor_data s inp).2).total_distance := by
  rcases step_snd s inp with h | h
  · rw [h]
  · rw [h]
    exact activeState_total_distance_mono s inp hj

theorem step_out_fields (s : SimState) (inp : SimInput) (o : Sample)
    (s2 : SimState) (hstep : get_monitor_data s inp = (some o, s2)) :
    o.stroke_count = (s2.stroke_count : ℚ) ∧
    o.distance = ((pyInt s2.total_distance : ℤ) : ℚ) ∧ 0 ≤ o.power := by
  unfold get_monitor_data at hstep
  split_ifs at hstep with h1 h2
  · exact absurd hstep (by simp)
  · rw [Prod.mk.injEq, Option.some.injEq] at hstep
    obtain ⟨rfl, rfl⟩ := hstep
    exact ⟨rfl, rfl, pyRound_nonneg (activePower_nonneg inp)⟩
  · rw [Prod.mk.injEq, Option.some.injEq] at hstep
    obtain ⟨rfl, rfl⟩ := hstep
    exact ⟨rfl, rfl, pyRound_nonneg (le_refl 0)⟩

theorem sim_run_1 :
    get_monitor_data simConnState simActInput = (some simActOut, simActState) := by
  norm_num [get_monitor_data, simConnState, simActInput, simActOut, simActState,
    activeState, strokeResetTime, activePower, sampleOf, targetSPM, targetPace,
    pyRound, roundHalfEven, pyInt, Sample.mk.injEq, SimState.mk.injEq]

theorem sim_run_2 :
    get_monitor_data simActState simIdleInput = (some simIdleOut, simActState) := by
  norm_num [get_monitor_data, simActState, simIdleInput, simIdleOut,
    activeState, strokeResetTime, activePower, sampleOf, targetSPM, targetPace,
    pyRound, roundHalfEven, pyInt, Sample.mk.injEq, SimState.mk.injEq]

/-- Counterexample to C3 as stated: a legitimate two-call run (draws inside
every distribution's support) in which the returned `calories` field
decreases — an active tick reports 0.2 cal, the following idle tick reports
0, because the code recomputes `calories` from scratch each call instead of
accumulating it in state. -/
theorem claim_C3_counterexample :
    get_monitor_data simConnState simActInput = (some simActOut, simActState) ∧
    get_monitor_data simActState simIdleInput = (some simIdleOut, simActState) ∧
    simIdleOut.calories < simActOut.calories :=
  ⟨sim_run_1, sim_run_2, by norm_num [simActOut, simIdleOut]⟩

/-- C3 amended: across any two consecutive `get_monitor_data` calls that
return samples (with the stroke-distance draw inside its support),
`stroke_count` and `distance` are non-decreasing and `power` is nonnegative
(and, being a rational, finite); `calories` is excluded — it is recomputed
per call and can decrease (see the counterexample). -/
theorem claim_C3_amended (s : SimState) (i1 i2 : SimInput) (o1 o2 : Sample)
    (s1 s2 : SimState) (hj2 : -1/10 ≤ i2.strokeJitter)
    (h1 : get_monitor_data s i1 = (some o1, s1))
    (h2 : get_monitor_data s1 i2 = (some o2, s2)) :
    o1.stroke_count ≤ o2.stroke_count ∧ o1.distance ≤ o2.distance ∧
    0 ≤ o1.power ∧ 0 ≤ o2.power := by
  obtain ⟨hc1, hd1, hp1⟩ := step_out_fields s i1 o1 s1 h1
  obtain ⟨hc2, hd2, hp2⟩ := step_out_fields s1 i2 o2 s2 h2
  have hsc : s1.stroke_count ≤ s2.stroke_count := by
    have h := step_stroke_count_mono s1 i2
    rw [h2] at h
    exact h
  have htd : s1.total_distance ≤ s2.total_distance := by
    have h := step_total_distance_mono s1 i2 hj2
    rw [h2] at h
    exact h
  refine ⟨?_, ?_, hp1, hp2⟩
  · rw [hc1, hc2]
    exact_mod_cast hsc
  · rw [hd1, hd2]
    exact_mod_cast pyInt_mono htd

/-- Witness for the amended C3 on the concrete active-then-idle run. -/
theorem claim_C3_amended_witness :
    simActOut.stroke_count ≤ simIdleOut.stroke_count ∧
    simActOut.distance ≤ simIdleOut.distance ∧
    0 ≤ simActOut.power ∧ 0 ≤ simIdleOut.power :=
  claim_C3_amended simConnState simActInput simIdleInput simActOut simIdleOut
    simActState simActState (by norm_num [simIdleInput]) sim_run_1 sim_run_2

/-- C7: on every active tick that returns a sample, with the pace draw inside
its support `[-5, 5]`, the pace fed to the power formula is strictly positive
(it is at least 95), the cube `pace_factor` is strictly positive — so the
division `2.8 / pace_factor` never divides by zero — and the reported power
is exactly that quotient, rounded. -/
theorem claim_C7 (s : SimState) (inp : SimInput) (o : Sample) (s2 : SimState)
    (hact : inp.rActive < 4/5)
    (hlo : -5 ≤ inp.paceJitter) (hhi : inp.paceJitter ≤ 5)
    (hstep : get_monitor_data s inp = (some o, s2)) :
    0 < targetPace + inp.paceJitter ∧
    0 < ((targetPace + inp.paceJitter) / 500) ^ 3 ∧
    o.power = pyRound ((14/5) / ((targetPace + inp.paceJitter) / 500) ^ 3) 1 := by
  have hpace : 0 < targetPace + inp.paceJitter := by
    unfold targetPace
    linarith
  have hpf : 0 < ((targetPace + inp.paceJitter) / 500) ^ 3 := by positivity
  refine ⟨hpace, hpf, ?_⟩
  unfold get_monitor_data at hstep
  split_ifs at hstep with h1 h2
  · exact absurd hstep (by simp)
  · rw [Prod.mk.injEq, Option.some.injEq] at hstep
    obtain ⟨rfl, rfl⟩ := hstep
    simp only [sampleOf]
    unfold activePower
    rw [if_pos hpf]

/-- Witness for C7 on the concrete active call. -/
theorem claim_C7_witness :
    0 < targetPace + simActInput.paceJitter ∧
    0 < ((targetPace + simActInput.paceJitter) / 500) ^ 3 ∧
    simActOut.power =
      pyRound ((14/5) / ((targetPace + simActInput.paceJitter) / 500) ^ 3) 1 :=
  claim_C7 simConnState simActInput simActOut simActState
    (by norm_num [simActInput]) (by norm_num [simActInput])
    (by norm_num [simActInput]) sim_run_1

/-- C8: for every nonempty sample sequence, the average stroke length lies
between the min and the max of the positive-filtered stroke-length values,
and when no stroke-length value is positive, average, best and worst are
all 0. -/
theorem claim_C8 (data : List Sample) (stats : SummaryStats)
    (h : get_summary_stats data = some stats) :
    (posVals Sample.stroke_length data = [] →
      stats.avg_stroke_length = 0 ∧ stats.best_stroke_length = 0 ∧
        stats.worst_stroke_length = 0) ∧
    (posVals Sample.stroke_length data ≠ [] →
      stats.worst_stroke_length ≤ stats.avg_stroke_length ∧
        stats.avg_stroke_length ≤ stats.best_stroke_length) := by
  obtain rfl : stats = statsOf data := get_summary_stats_eq h
  constructor
  · intro hnil
    refine ⟨?_, ?_, ?_⟩ <;> simp [statsOf, hnil]
  · intro hne
    have h1 : (statsOf data).avg_stroke_length =
        mean (posVals Sample.stroke_length data) := by
      simp [statsOf, hne]
    have h2 : (statsOf data).best_stroke_length =
        listMax (posVals Sample.stroke_length data) := by
      simp [statsOf, hne]
    have h3 : (statsOf data).worst_stroke_length =
        listMin (posVals Sample.stroke_length data) := by
      simp [statsOf, hne]
    rw [h1, h2, h3]
    exact ⟨listMin_le_mean hne, mean_le_listMax hne⟩

/-- Witness for C8 on a one-sample workout with stroke length 2. -/
theorem claim_C8_witness :
    (statsOf oneSampleData).worst_stroke_length ≤
      (statsOf oneSampleData).avg_stroke_length ∧
    (statsOf oneSampleData).avg_stroke_length ≤
      (statsOf oneSampleData).best_stroke_length :=
  (claim_C8 oneSampleData (statsOf oneSampleData)
    (get_summary_stats_cons _ _)).2
    (by norm_num [posVals, oneSampleData, slSample, List.filter])

/-- C5: for every nonempty sample sequence, `stroke_length_consistency` is
exactly 100 when fewer than 2 positive stroke-length values exist and is
`(1 − σ/μ) * 100` (sample standard deviation over mean of the filtered list)
otherwise; no clamping is applied — witnessed by an input whose consistency
is negative. -/
theorem claim_C5 :
    (∀ (data : List Sample) (stats : SummaryStats),
      get_summary_stats data = some stats →
      (((posVals Sample.stroke_length data).length < 2 →
        stats.stroke_length_consistency = 100) ∧
      (2 ≤ (posVals Sample.stroke_length data).length →
        stats.stroke_length_consistency =
          (1 - Real.sqrt ((sampleVariance (posVals Sample.stroke_length data) : ℚ) : ℝ) /
            ((mean (posVals Sample.stroke_length data) : ℚ) : ℝ)) * 100))) ∧
    ∃ (data2 : List Sample) (stats2 : SummaryStats),
      get_summary_stats data2 = some stats2 ∧
      stats2.stroke_length_consistency < 0 := by
  constructor
  · intro data stats h
    obtain rfl : stats = statsOf data := get_summary_stats_eq h
    constructor
    · intro hlen
      have hnot : ¬ 1 < (posVals Sample.stroke_length data).length := by omega
      simp [statsOf, hnot]
    · intro hlen
      have h1 : 1 < (posVals Sample.stroke_length data).length := by omega
      have hne : posVals Sample.stroke_length data ≠ [] := by
        intro hnil
        rw [hnil] at h1
        simp at h1
      simp [statsOf, h1, hne]
  · refine ⟨negConsistencyData, statsOf negConsistencyData,
      get_summary_stats_cons _ _, ?_⟩
    have hpv : posVals Sample.stroke_length negConsistencyData = [1, 1, 1, 9] := by
      norm_num [posVals, negConsistencyData, slSample, List.filter]
    have hmean : mean (posVals Sample.stroke_length negConsistencyData) = 3 := by
      rw [hpv]
      norm_num [mean]
    have hvar : sampleVariance (posVals Sample.stroke_length negConsistencyData) = 16 := by
      rw [hpv]
      norm_num [sampleVariance, mean]
    have hlen : 1 < (posVals Sample.stroke_length negConsistencyData).length := by
      rw [hpv]
      norm_num
    have hne : posVals Sample.stroke_length negConsistencyData ≠ [] := by
      rw [hpv]
      simp
    have hcons : (statsOf negConsistencyData).stroke_length_consistency =
        (1 - Real.sqrt ((16 : ℚ) : ℝ) / ((3 : ℚ) : ℝ)) * 100 := by
      simp [statsOf, hlen, hne, hmean, hvar]
    rw [hcons]
    have hs : Real.sqrt ((16 : ℚ) : ℝ) = 4 := by
      rw [show ((16 : ℚ) : ℝ) = (4 : ℝ) ^ 2 by norm_num]
      exact Real.sqrt_sq (by norm_num)
    rw [hs]
    norm_num

/-- Witness for C5's branch structure on a one-sample workout:
one positive stroke-length value, so consistency is exactly 100. -/
theorem claim_C5_witness :
    (statsOf oneSampleData).stroke_length_consistency = 100 :=
  (claim_C5.1 oneSampleData (statsOf oneSampleData)
    (get_summary_stats_cons _ _)).1
    (by norm_num [posVals, oneSampleData, slSample, List.filter])

/-! ## Slice and enumeration lemmas for the split loop -/

theorem slice_length (data : List Sample) (a i : ℕ) (ha : a ≤ i)
    (hi : i < data.length) :
    ((data.drop a).take (i + 1 - a)).length = i + 1 - a := by
  simp only [List.length_take, List.length_drop]
  omega

theorem slice_ne_nil (data : List Sample) (a i : ℕ) (ha : a ≤ i)
    (hi : i < data.length) :
    (data.drop a).take (i + 1 - a) ≠ [] := by
  rw [← List.length_pos, slice_length data a i ha hi]
  omega

theorem slice_head? (data : List Sample) (a i : ℕ) (ha : a ≤ i)
    (hi : i < data.length) :
    ((data.drop a).take (i + 1 - a)).head? = some data[a] := by
  rw [List.head?_eq_getElem?, List.getElem?_take_of_lt (by omega : 0 < i + 1 - a),
    List.getElem?_drop]
  exact List.getElem?_eq_getElem (by omega)

theorem slice_getLast? (data : List Sample) (a i : ℕ) (ha : a ≤ i)
    (hi : i < data.length) :
    ((data.drop a).take (i + 1 - a)).getLast? = some data[i] := by
  rw [List.getLast?_eq_getElem?, slice_length data a i ha hi,
    List.getElem?_take_of_lt (by omega : i + 1 - a - 1 < i + 1 - a),
    List.getElem?_drop, show a + (i + 1 - a - 1) = i from by omega]
  exact List.getElem?_eq_getElem hi

theorem slice_map_headD (data : List Sample) (f : Sample → ℚ) (a i : ℕ)
    (ha : a ≤ i) (hi : i < data.length) :
    (((data.drop a).take (i + 1 - a)).map f).headD 0 = f data[a] := by
  rw [List.headD_eq_head?_getD, List.head?_map, slice_head? data a i ha hi]
  rfl

theorem slice_map_getLastD (data : List Sample) (f : Sample → ℚ) (a i : ℕ)
    (ha : a ≤ i) (hi : i < data.length) :
    (((data.drop a).take (i + 1 - a)).map f).getLastD 0 = f data[i] := by
  rw [List.getLastD_eq_getLast?, List.getLast?_map, slice_getLast? data a i ha hi]
  rfl

theorem splitInfo_time (num : ℕ) (sd : ℚ) (sdata : List Sample) :
    (splitInfo num sd sdata).time =
      ((sdata.map Sample.time).getLastD 0) - ((sdata.map Sample.time).headD 0) :=
  rfl

theorem sumTimes_append (l1 l2 : List SplitRecord) :
    sumTimes (l1 ++ l2) = sumTimes l1 + sumTimes l2 := by
  simp [sumTimes]

theorem enum_drop_eq_nil (data : List Sample) (j : ℕ) (h : data.length ≤ j) :
    data.enum.drop j = [] := by
  apply List.drop_eq_nil_of_le
  simpa [List.enum_eq_enumFrom, List.enumFrom_length] using h

theorem enum_drop_cons (data : List Sample) (j : ℕ) (h : j < data.length) :
    data.enum.drop j = (j, data[j]) :: data.enum.drop (j + 1) := by
  have hlen : j < data.enum.length := by
    simpa [List.enum_eq_enumFrom, List.enumFrom_length] using h
  rw [List.drop_eq_getElem_cons hlen]
  congr 1
  simp [List.enum_eq_enumFrom, List.getElem_enumFrom]

/-- Loop invariant for C2: with `start_idx = a` and the elapsed times of the
splits closed so far summing (telescoping) to `time[a] - time[0]`, the final
sum is bounded by `time[last] - time[0]`. -/
theorem splitLoopAux_time_bound (data : List Sample) (sd : ℚ)
    (hmono : ∀ (p q : ℕ) (hp : p < data.length) (hq : q < data.length),
      p ≤ q → data[p].time ≤ data[q].time) :
    ∀ (l : List (ℕ × Sample)) (j a : ℕ) (d0 : ℚ) (splits : List SplitRecord)
      (hl : l = data.enum.drop j) (hja : a ≤ j) (han : a < data.length)
      (hsum : sumTimes splits = data[a].time - data[0].time),
      sumTimes (splitLoopAux data sd l a d0 splits) ≤
        data[data.length - 1].time - data[0].time := by
  intro l
  induction l with
  | nil =>
    intro j a d0 splits hl hja han hsum
    rw [splitLoopAux, hsum]
    have := hmono a (data.length - 1) han (by omega) (by omega)
    linarith
  | cons hd rest ih =>
    intro j a d0 splits hl hja han hsum
    obtain ⟨i, point⟩ := hd
    have hjn : j < data.length := by
      by_contra hge
      rw [enum_drop_eq_nil data j (by omega)] at hl
      exact absurd hl (by simp)
    rw [enum_drop_cons data j hjn] at hl
    injection hl with h1 hrest
    injection h1 with hi hpoint
    subst hi
    subst hpoint
    rw [splitLoopAux]
    split_ifs with htrig
    · dsimp only
      rw [if_neg (slice_ne_nil data a i hja hjn)]
      apply ih (i + 1) i _ _ hrest (by omega) hjn
      rw [sumTimes_append, hsum]
      simp only [sumTimes, List.map_cons, List.map_nil, List.sum_cons,
        List.sum_nil, splitInfo_time]
      rw [slice_map_headD data Sample.time a i hja hjn,
        slice_map_getLastD data Sample.time a i hja hjn]
      ring
    · exact ih (i + 1) a d0 splits hrest (by omega) han hsum

/-- C2: for every nonempty sample sequence whose `time` field is nonnegative
and non-decreasing, the sum of the elapsed times of all emitted splits is at
most the total workout time (the `time` of the last sample). -/
theorem claim_C2 (data : List Sample) (split_distance : ℚ) (hne : data ≠ [])
    (hsort : (data.map Sample.time).Sorted (· ≤ ·))
    (hnn : ∀ s ∈ data, 0 ≤ s.time) :
    sumTimes (get_split_analysis data split_distance) ≤ (data.getLast hne).time := by
  have hlen : 0 < data.length := List.length_pos.mpr hne
  have hmono : ∀ (p q : ℕ) (hp : p < data.length) (hq : q < data.length),
      p ≤ q → data[p].time ≤ data[q].time := by
    intro p q hp hq hpq
    rcases Nat.eq_or_lt_of_le hpq with rfl | hlt
    · exact le_refl _
    · have hg := List.Sorted.rel_get_of_lt hsort
        (a := ⟨p, by simpa using hp⟩) (b := ⟨q, by simpa using hq⟩)
        (by simpa [Fin.lt_def] using hlt)
      simpa using hg
  have h0 : 0 ≤ data[0].time := hnn _ (List.getElem_mem hlen)
  have hmain := splitLoopAux_time_bound data split_distance hmono data.enum 0 0 0 []
    (by rw [List.drop_zero]) (le_refl 0) hlen (by simp [sumTimes])
  have hlast : data.getLast hne = data[data.length - 1] :=
    List.getLast_eq_getElem data hne
  rw [hlast]
  unfold get_split_analysis
  linarith

/-- Witness for C2: three samples at times 0, 10, 20 crossing one 500 m
boundary; the single split's elapsed time is at most 20. -/
theorem claim_C2_witness :
    sumTimes (get_split_analysis c2WitData 500) ≤ 20 := by
  have h := claim_C2 c2WitData 500 (by simp [c2WitData])
    (by norm_num [c2WitData, sampleAt, List.Sorted, List.pairwise_cons])
    (by norm_num [c2WitData, sampleAt])
  have hlast : (c2WitData.getLast (by simp [c2WitData])).time = 20 := by
    norm_num [c2WitData, sampleAt, List.getLast]
  rw [hlast] at h
  exact h

/-- The split loop equals its instrumented twin: the emitted records are
exactly `splitInfo` applied to the inclusive slices named by the recorded
boundary pairs, numbered consecutively. -/
theorem splitLoopAux_eq_records (data : List Sample) (sd : ℚ) :
    ∀ (l : List (ℕ × Sample)) (j a : ℕ) (d0 : ℚ) (splits : List SplitRecord)
      (hl : l = data.enum.drop j) (hja : a ≤ j),
      splitLoopAux data sd l a d0 splits =
        splits ++ recordsOf data sd splits.length (boundariesAux sd l a d0) := by
  intro l
  induction l with
  | nil =>
    intro j a d0 splits hl hja
    rw [splitLoopAux, boundariesAux, recordsOf]
    simp
  | cons hd rest ih =>
    intro j a d0 splits hl hja
    obtain ⟨i, point⟩ := hd
    have hjn : j < data.length := by
      by_contra hge
      rw [enum_drop_eq_nil data j (by omega)] at hl
      exact absurd hl (by simp)
    rw [enum_drop_cons data j hjn] at hl
    injection hl with h1 hrest
    injection h1 with hi hpoint
    subst hi
    subst hpoint
    rw [splitLoopAux, boundariesAux]
    split_ifs with htrig
    · dsimp only
      rw [if_neg (slice_ne_nil data a i hja hjn)]
      rw [ih (i + 1) i _ _ hrest (by omega)]
      rw [recordsOf]
      simp [List.length_append, List.append_assoc]
    · exact ih (i + 1) a d0 splits hrest (by omega)

/-- Every recorded boundary pair starts where the previous one ended, and the
first one starts at the loop's current `start_idx`. -/
theorem boundariesAux_chain (sd : ℚ) :
    ∀ (l : List (ℕ × Sample)) (a : ℕ) (d0 : ℚ),
      List.Chain' (fun p q => q.1 = p.2) (boundariesAux sd l a d0) ∧
      ∀ q ∈ (boundariesAux sd l a d0).head?, q.1 = a := by
  intro l
  induction l with
  | nil =>
    intro a d0
    rw [boundariesAux]
    simp
  | cons hd rest ih =>
    intro a d0
    obtain ⟨i, point⟩ := hd
    rw [boundariesAux]
    split_ifs with htrig
    · refine ⟨?_, ?_⟩
      · rw [List.chain'_cons']
        exact ⟨fun q hq => (ih i point.distance).2 q hq, (ih i point.distance).1⟩
      · intro q hq
        simp at hq
        subst hq
        rfl
    · exact ih a d0

/-- The loop's boundary trace equals the spec-worded skip-then-close
characterization, given enough fuel. -/
theorem boundariesAux_eq_specBoundsAux (sd : ℚ) :
    ∀ (l : List (ℕ × Sample)) (fuel a : ℕ) (d0 : ℚ) (hf : l.length ≤ fuel),
      boundariesAux sd l a d0 = specBoundsAux sd fuel a d0 l := by
  intro l
  induction l with
  | nil =>
    intro fuel a d0 hf
    cases fuel <;> simp [boundariesAux, specBoundsAux]
  | cons hd rest ih =>
    intro fuel a d0 hf
    obtain ⟨i, point⟩ := hd
    cases fuel with
    | zero => simp at hf
    | succ fuel =>
      rw [boundariesAux]
      split_ifs with htrig
      · have hp : (fun p : ℕ × Sample => decide (p.2.distance < d0 + sd))
            ((i, point)) = false := by
          simp [not_lt.mpr htrig]
        rw [specBoundsAux, List.dropWhile_cons_of_neg (by simp [hp])]
        rw [ih fuel i point.distance (by simpa using Nat.le_of_succ_le_succ hf)]
      · have hp : (fun p : ℕ × Sample => decide (p.2.distance < d0 + sd))
            ((i, point)) = true := by
          simp [not_le.mp htrig]
        rw [ih (fuel + 1) a d0 (by simp at hf ⊢; omega)]
        rw [specBoundsAux, specBoundsAux,
          List.dropWhile_cons_of_pos (by simp [hp])]

/-- C4: every closed split is computed over the inclusive slice
`samples[start_idx .. i]` (the output is exactly `splitInfo` over the
recorded boundary slices), and consecutive boundary pairs overlap in one
sample: each split's first index equals the previous split's last index. -/
theorem claim_C4 (data : List Sample) (split_distance : ℚ) :
    get_split_analysis data split_distance =
      recordsOf data split_distance 0 (splitBoundaries data split_distance) ∧
    List.Chain' (fun p q : ℕ × ℕ => q.1 = p.2)
      (splitBoundaries data split_distance) := by
  constructor
  · have h := splitLoopAux_eq_records data split_distance data.enum 0 0 0 []
      (by rw [List.drop_zero]) (le_refl 0)
    simpa [get_split_analysis, splitBoundaries] using h
  · exact (boundariesAux_chain split_distance data.enum 0 0).1

/-- C1 amended: the segmentation starts with `start_idx = 0` and
`start_distance = 0` (the literal zero, not the first sample's distance) and
closes a split exactly at each first index whose distance reaches
`start_distance + split_distance`, as captured by the spec-worded
`specBounds` characterization. -/
theorem claim_C1_amended (data : List Sample) (split_distance : ℚ) :
    splitBoundaries data split_distance =
      specBounds split_distance 0 0 data.enum ∧
    get_split_analysis data split_distance =
      recordsOf data split_distance 0 (specBounds split_distance 0 0 data.enum) := by
  have h := boundariesAux_eq_specBoundsAux split_distance data.enum
    data.enum.length 0 0 (le_refl _)
  constructor
  · exact h
  · have h2 := splitLoopAux_eq_records data split_distance data.enum 0 0 0 []
      (by rw [List.drop_zero]) (le_refl 0)
    rw [specBounds, ← h]
    simpa [get_split_analysis, splitBoundaries] using h2

end Concept2
